import Mathlib

/-!
Shallow embedding of the statix lint-engine core (`src/lib/src/lib.rs` and
`src/lib/src/lints/manual_inherit_from.rs`).

Source text is modelled as `List Char`, one entry per byte of the Rust
`String` (every example in the development is ASCII, so byte offsets and
entry offsets coincide).  Rust panics are modelled as `none` of an `Option`
result.  External `rnix` values (`TextRange`, `SyntaxKind`, syntax elements
and parse errors) are modelled just deeply enough to carry the fields the
embedded code reads.
-/

/-- Model of `rnix::TextRange`: a half-open byte interval.  The field `stop`
models the Rust accessor `end()` (`end` is a Lean keyword). -/
structure TextRange where
  start : Nat
  stop : Nat
deriving DecidableEq, Repr

/-- Model of `TextRange::empty(offset)`: the empty range at an offset. -/
def TextRange.empty (offset : Nat) : TextRange :=
  ⟨offset, offset⟩

/-- Model of `TextRange::cover`: the minimal range enclosing both ranges. -/
def TextRange.cover (a b : TextRange) : TextRange :=
  ⟨min a.start b.start, max a.stop b.stop⟩

/-- `outer` encloses `inner` (the containment order on ranges). -/
def TextRange.contains_range (outer inner : TextRange) : Prop :=
  outer.start ≤ inner.start ∧ inner.stop ≤ outer.stop

instance (a b : TextRange) : Decidable (a.contains_range b) := by
  unfold TextRange.contains_range
  infer_instance

/-- Model of `rnix::SyntaxKind` (the node-kind tags used by the lints). -/
inductive SyntaxKind where
  | NODE_KEY_VALUE
  | NODE_IDENT
  | NODE_SELECT
  | NODE_INHERIT_FROM
  | NODE_STRING
  | NODE_LAMBDA
deriving DecidableEq, Repr

/-- Model of `rnix::SyntaxElement`: a node or token of the parsed tree, with
the structure read by the embedded lint (`KeyValue`, `Select`, `Ident` casts
and their accessors).  Accessors that return `Option` in `rnix`
(`KeyValue::key`, `KeyValue::value`, `Select::set`, `Select::index`) are
modelled as `Option` fields.  `inheritFrom` is the detached
`inherit (set) idents;` statement node produced by `make::inherit_from_stmt`;
`node` stands for any other element, carrying its kind and source text. -/
inductive SyntaxElement where
  | token (range : TextRange) (text : String)
  | ident (range : TextRange) (name : String)
  | select (range : TextRange) (set : Option SyntaxElement)
      (index : Option SyntaxElement)
  | keyValue (range : TextRange) (key : Option (List SyntaxElement))
      (value : Option SyntaxElement)
  | inheritFrom (range : TextRange) (set : SyntaxElement)
      (idents : List String)
  | node (range : TextRange) (kind : SyntaxKind) (text : String)

/-- Model of `SyntaxElement::text_range`. -/
def SyntaxElement.text_range : SyntaxElement → TextRange
  | .token r _ => r
  | .ident r _ => r
  | .select r _ _ => r
  | .keyValue r _ _ => r
  | .inheritFrom r _ _ => r
  | .node r _ _ => r

mutual

/-- Model of `SyntaxElement`'s `Display` (`to_string()`): the source text of
the element.  For elements assembled in this development the text is
reassembled from the parts; `inherit (set) idents;` matches the inherit-from
statement shape. -/
def SyntaxElement.render : SyntaxElement → String
  | .token _ t => t
  | .ident _ n => n
  | .select _ set? index? =>
      SyntaxElement.renderOpt set? ++ "." ++ SyntaxElement.renderOpt index?
  | .keyValue _ key? value? =>
      (match key? with
        | some ps => SyntaxElement.renderPath ps
        | none => "") ++ " = " ++ SyntaxElement.renderOpt value? ++ ";"
  | .inheritFrom _ set ns =>
      "inherit (" ++ SyntaxElement.render set ++ ") " ++
        String.intercalate " " ns ++ ";"
  | .node _ _ t => t

/-- Rendering of an optional element (absent parts render as nothing). -/
def SyntaxElement.renderOpt : Option SyntaxElement → String
  | none => ""
  | some e => SyntaxElement.render e

/-- Rendering of a dotted attribute path. -/
def SyntaxElement.renderPath : List SyntaxElement → String
  | [] => ""
  | [e] => SyntaxElement.render e
  | e :: es => SyntaxElement.render e ++ "." ++ SyntaxElement.renderPath es

end

/-- Model of `Severity` (`lib.rs` lines 19-31); the `Default` impl picks
`Warn`. -/
inductive Severity where
  | Warn
  | Error
  | Hint
deriving DecidableEq, Repr

/-- Model of `Suggestion` (`lib.rs` lines 180-186). -/
structure Suggestion where
  «at» : TextRange
  fix : SyntaxElement

/-- Model of `Suggestion::new`. -/
def Suggestion.new (a : TextRange) (fix : SyntaxElement) : Suggestion :=
  ⟨a, fix⟩

/-- Model of `String::replace_range(start..stop, repl)`: splice `repl` over
the bytes `[start, stop)` of `src`. -/
def replace_range (src : List Char) (start stop : Nat) (repl : List Char) :
    List Char :=
  src.take start ++ repl ++ src.drop stop

/-- Model of `Suggestion::apply` (`lib.rs` lines 196-201): replace the bytes
of `at` with the textual rendering (`to_string`) of the fix element. -/
def Suggestion.apply (s : Suggestion) (src : List Char) : List Char :=
  replace_range src s.«at».start s.«at».stop (SyntaxElement.render s.fix).data

/-- Model of `Diagnostic` (`lib.rs` lines 127-132). -/
structure Diagnostic where
  «at» : TextRange
  message : String
  suggestion : Option Suggestion

/-- Model of `Diagnostic::new`. -/
def Diagnostic.new (a : TextRange) (message : String) : Diagnostic :=
  ⟨a, message, none⟩

/-- Model of `Diagnostic::suggest`. -/
def Diagnostic.suggest (a : TextRange) (message : String) (s : Suggestion) :
    Diagnostic :=
  ⟨a, message, some s⟩

/-- Model of `Diagnostic::apply` (`lib.rs` lines 151-156): apply the
suggestion if there is one, otherwise leave the source untouched. -/
def Diagnostic.apply (d : Diagnostic) (src : List Char) : List Char :=
  match d.suggestion with
  | some s => s.apply src
  | none => src

/-- Model of `Report` (`lib.rs` lines 33-45). -/
structure Report where
  note : String
  code : Nat
  severity : Severity
  diagnostics : List Diagnostic

/-- Model of `Report::new` (`lib.rs` lines 49-55): the remaining fields come
from `Default` (severity `Warn`, no diagnostics). -/
def Report.new (note : String) (code : Nat) : Report :=
  ⟨note, code, Severity.Warn, []⟩

/-- Model of `Report::diagnostic` (`lib.rs` lines 57-60): push a new
diagnostic (`Vec::push` appends at the end). -/
def Report.diagnostic (r : Report) (a : TextRange) (message : String) :
    Report :=
  { r with diagnostics := r.diagnostics ++ [Diagnostic.new a message] }

/-- Model of `Report::suggest` (`lib.rs` lines 62-71). -/
def Report.suggest (r : Report) (a : TextRange) (message : String)
    (s : Suggestion) : Report :=
  { r with diagnostics := r.diagnostics ++ [Diagnostic.suggest a message s] }

/-- Model of the builder `Report::severity` (`lib.rs` lines 73-76); renamed
because the field of the same name takes the plain name in Lean. -/
def Report.set_severity (r : Report) (s : Severity) : Report :=
  { r with severity := s }

/-- Model of `Iterator::reduce`: fold the tail onto the head, `none` on an
empty iterator. -/
def reduce (f : α → α → α) : List α → Option α
  | [] => none
  | x :: xs => some (xs.foldl f x)

/-- Model of `Report::total_suggestion_range` (`lib.rs` lines 77-83):
`flat_map(|d| Some(d.suggestion.as_ref()?.at))` keeps exactly the ranges of
the diagnostics that carry a suggestion, then `reduce(cover)`. -/
def Report.total_suggestion_range (r : Report) : Option TextRange :=
  reduce TextRange.cover
    (r.diagnostics.filterMap (fun d => d.suggestion.map Suggestion.«at»))

/-- Model of `Report::total_diagnostic_range` (`lib.rs` lines 85-90). -/
def Report.total_diagnostic_range (r : Report) : Option TextRange :=
  reduce TextRange.cover (r.diagnostics.map Diagnostic.«at»)

/-- Model of `Report::range` (`lib.rs` lines 92-94):
`total_suggestion_range().unwrap()`; the `unwrap` panic is modelled as
`none`. -/
def Report.range (r : Report) : Option TextRange :=
  r.total_suggestion_range

/-- Model of `Report::apply` (`lib.rs` lines 96-100): apply every diagnostic
to the buffer, in the order they are stored. -/
def Report.apply (r : Report) (src : List Char) : List Char :=
  r.diagnostics.foldl (fun acc d => d.apply acc) src

/-- Model of `rnix::parser::ParseError`, restricted to the variants the
adapter names; `Other` stands for any variant hitting the wildcard arm of
the `match` in `Report::from_parse_err`. -/
inductive ParseError where
  | Unexpected (range : TextRange)
  | UnexpectedExtra (range : TextRange)
  | UnexpectedWanted (got : SyntaxKind) (range : TextRange)
      (wanted : List SyntaxKind)
  | UnexpectedDoubleBind (range : TextRange)
  | UnexpectedEOF
  | UnexpectedEOFWanted (wanted : List SyntaxKind)
  | Other

/-- Model of the `let at = match err { ... }` of `Report::from_parse_err`
(`lib.rs` lines 103-112): located variants give their range, the
end-of-file variants the empty range at offset 0, and the wildcard arm
panics (`none`). -/
def parse_err_at : ParseError → Option TextRange
  | .Unexpected r => some r
  | .UnexpectedExtra r => some r
  | .UnexpectedWanted _ r _ => some r
  | .UnexpectedDoubleBind r => some r
  | .UnexpectedEOF => some (TextRange.empty 0)
  | .UnexpectedEOFWanted _ => some (TextRange.empty 0)
  | .Other => none

/-- Model of `u8::make_ascii_uppercase` on a one-byte character. -/
def asciiUppercase (c : Char) : Char :=
  if 'a' ≤ c ∧ c ≤ 'z' then Char.ofNat (c.toNat - 32) else c

/-- Model of `message.as_mut_str().get_mut(0..1).unwrap().make_ascii_uppercase()`
(`lib.rs` lines 113-118): `get_mut(0..1)` is `None` — so the `unwrap`
panics, modelled as `none` — exactly when the string is empty or byte 1 is
not a character boundary, i.e. the first character occupies more than one
byte. -/
def capitalize_first (msg : String) : Option String :=
  match msg.data with
  | [] => none
  | c :: cs =>
      if c.utf8Size = 1 then some (String.mk (asciiUppercase c :: cs))
      else none

/-- Model of `Report::from_parse_err` (`lib.rs` lines 102-122).  The
rendering `err.to_string()` of the external `Display` impl is passed in as
`render`. -/
def Report.from_parse_err (render : ParseError → String) (err : ParseError) :
    Option Report := do
  let a ← parse_err_at err
  let message ← capitalize_first (render err)
  some (((Report.new "Syntax error" 0).diagnostic a message).set_severity
    Severity.Error)

/-- Modelled from the spec: `make::inherit_from_stmt` lives in `make.rs`,
which is not under `src/`; per the spec it builds a detached
`inherit (set) idents;` statement whose rendering is the inherit-from form
of the end-to-end scenario (`inherit (b) a;`).  A detached fragment's
offsets start at 0. -/
def make.inherit_from_stmt (set : SyntaxElement) (idents : List String) :
    SyntaxElement :=
  SyntaxElement.inheritFrom (TextRange.empty 0) set idents

/-- Modelled from the spec: the `lint` attribute macro (the `macros` crate is
not under `src/`) derives `Metadata::report()`, which builds an empty
`Report` pre-filled with the rule's note and code — here the attributes
`note = "Assignment instead of inherit from"`, `code = 4` given in
`manual_inherit_from.rs` lines 10-15. -/
def ManualInherit.report : Report :=
  Report.new "Assignment instead of inherit from" 4

/-- Model of `<ManualInherit as Rule>::validate`
(`manual_inherit_from.rs` lines 18-48), the `if_chain!` written as nested
matches: the element must be a key/value node, its key path a single part
that casts to an identifier, its value a select whose index casts to an
identifier with the same name; then the whole node is replaced by the
inherit-from statement built over the select's set. -/
def ManualInherit.validate (element : SyntaxElement) : Option Report :=
  match element with
  | SyntaxElement.keyValue _ key? value? =>
    match key? with
    | none => none
    | some keyPath =>
      match keyPath with
      | [keyNode] =>
        match keyNode with
        | SyntaxElement.ident _ key =>
          match value? with
          | none => none
          | some valueNode =>
            match valueNode with
            | SyntaxElement.select _ set? index? =>
              match index? with
              | none => none
              | some indexNode =>
                match indexNode with
                | SyntaxElement.ident _ index =>
                  if key = index then
                    match set? with
                    | none => none
                    | some set =>
                      some (ManualInherit.report.suggest element.text_range
                        "This assignment is better written with `inherit`"
                        (Suggestion.new element.text_range
                          (make.inherit_from_stmt set [key])))
                  else none
                | _ => none
            | _ => none
        | _ => none
      | _ => none
  | _ => none

/-- Whether an element is a select node (`Select::cast` succeeds). -/
def IsSelect : SyntaxElement → Bool
  | .select _ _ _ => true
  | _ => false

/-- Modelled from the spec: the identity data the `lint` macro derives for a
rule — its name, note, code and the complete list of kinds its `match_with`
accepts (spec §4.2: `matchKind()` is the complete set of kinds for which
`matchWith` returns true). -/
structure LintInfo where
  name : String
  note : String
  code : Nat
  match_kind : List SyntaxKind
deriving DecidableEq, Repr

/-- Modelled from the spec: `matchWith` holds exactly on the kinds listed in
`matchKind`. -/
def LintInfo.match_with (l : LintInfo) (k : SyntaxKind) : Bool :=
  l.match_kind.contains k

/-- The identity of the `manual inherit from` rule
(`manual_inherit_from.rs` lines 10-15). -/
def manual_inherit_info : LintInfo :=
  ⟨"manual inherit from", "Assignment instead of inherit from", 4,
    [SyntaxKind.NODE_KEY_VALUE]⟩

/-- Insert a rule under one kind of the registry table. -/
def registry_insert (m : SyntaxKind → List LintInfo) (k : SyntaxKind)
    (l : LintInfo) : SyntaxKind → List LintInfo :=
  fun q => if q = k then m q ++ [l] else m q

/-- Modelled from the spec: the kind-indexed registry of §4.3, built once by
iterating every registered rule exactly once and inserting it under each of
its matching kinds (the `lints!` macro of `lib.rs` lines 260-282 assembles
the flat rule list; the kind-indexed table it feeds is built outside
`src/`). -/
def build_registry (lints : List LintInfo) : SyntaxKind → List LintInfo :=
  lints.foldl
    (fun m l => l.match_kind.foldl (fun m2 k => registry_insert m2 k l) m)
    (fun _ => [])

/-- The edit a suggestion performs: its range and its rendered replacement
text. -/
def Suggestion.edit (s : Suggestion) : TextRange × List Char :=
  (s.«at», (SyntaxElement.render s.fix).data)

/-- The edits of a report, in stored diagnostic order; diagnostics without a
suggestion contribute none. -/
def Report.edits (r : Report) : List (TextRange × List Char) :=
  (r.diagnostics.filterMap Diagnostic.suggestion).map Suggestion.edit

/-- The edit list applied by folding `replace_range` left to right — the
loop of `Report::apply` expressed on the edits alone. -/
def applyEdits (src : List Char) (es : List (TextRange × List Char)) :
    List Char :=
  es.foldl (fun acc e => replace_range acc e.1.start e.1.stop e.2) src

/-- The edit list is in descending start order, its ranges are well-formed,
pairwise disjoint, and all end at or before `n`. -/
def editsWithin (n : Nat) : List (TextRange × List Char) → Bool
  | [] => true
  | (r, _) :: rest =>
      decide (r.start ≤ r.stop) && decide (r.stop ≤ n) &&
        editsWithin r.start rest

/-- Specification of batch fix application, following the spec's words
(§4.5): for edits ordered from the highest starting offset to the lowest,
the output is the source with each edited span replaced by its replacement
text and every byte outside the edited spans kept verbatim, in order. -/
def spliceEdits (src : List Char) : List (TextRange × List Char) → List Char
  | [] => src
  | (r, f) :: rest =>
      spliceEdits (src.take r.start) rest ++ f ++ src.drop r.stop

lemma contains_range_refl (a : TextRange) : a.contains_range a :=
  ⟨Nat.le_refl _, Nat.le_refl _⟩

lemma contains_range_trans {u a b : TextRange} (h1 : u.contains_range a)
    (h2 : a.contains_range b) : u.contains_range b := by
  unfold TextRange.contains_range at *
  omega

lemma cover_contains_left (a b : TextRange) :
    (a.cover b).contains_range a := by
  unfold TextRange.cover TextRange.contains_range
  constructor <;> simp

lemma cover_contains_right (a b : TextRange) :
    (a.cover b).contains_range b := by
  unfold TextRange.cover TextRange.contains_range
  constructor <;> simp

lemma contains_cover {u a b : TextRange} (h1 : u.contains_range a)
    (h2 : u.contains_range b) : u.contains_range (a.cover b) := by
  unfold TextRange.cover TextRange.contains_range at *
  exact ⟨le_min h1.1 h2.1, max_le h1.2 h2.2⟩

lemma foldl_cover_contains (xs : List TextRange) :
    ∀ a : TextRange, (xs.foldl TextRange.cover a).contains_range a ∧
      ∀ x ∈ xs, (xs.foldl TextRange.cover a).contains_range x := by
  induction xs with
  | nil =>
      intro a
      exact ⟨contains_range_refl a, by simp⟩
  | cons x xs ih =>
      intro a
      obtain ⟨h1, h2⟩ := ih (a.cover x)
      refine ⟨contains_range_trans h1 (cover_contains_left a x), ?_⟩
      intro y hy
      rcases List.mem_cons.mp hy with rfl | h
      · exact contains_range_trans h1 (cover_contains_right a _)
      · exact h2 y h

lemma foldl_cover_least (xs : List TextRange) :
    ∀ (a u : TextRange), u.contains_range a →
      (∀ x ∈ xs, u.contains_range x) →
      u.contains_range (xs.foldl TextRange.cover a) := by
  induction xs with
  | nil =>
      intro a u ha _
      exact ha
  | cons x xs ih =>
      intro a u ha hx
      exact ih (a.cover x) u (contains_cover ha (hx x (by simp)))
        (fun y hy => hx y (List.mem_cons_of_mem _ hy))

lemma reduce_cover_eq_none (l : List TextRange) :
    reduce TextRange.cover l = none ↔ l = [] := by
  cases l <;> simp [reduce]

lemma reduce_cover_contains {l : List TextRange} {t : TextRange}
    (h : reduce TextRange.cover l = some t) : ∀ x ∈ l, t.contains_range x := by
  cases l with
  | nil => simp [reduce] at h
  | cons a xs =>
      simp only [reduce, Option.some.injEq] at h
      subst h
      intro x hx
      rcases List.mem_cons.mp hx with rfl | h
      · exact (foldl_cover_contains xs _).1
      · exact (foldl_cover_contains xs a).2 x h

lemma reduce_cover_least {l : List TextRange} {t u : TextRange}
    (h : reduce TextRange.cover l = some t)
    (hu : ∀ x ∈ l, u.contains_range x) : u.contains_range t := by
  cases l with
  | nil => simp [reduce] at h
  | cons a xs =>
      simp only [reduce, Option.some.injEq] at h
      subst h
      exact foldl_cover_least xs a u (hu a (by simp))
        (fun x hx => hu x (List.mem_cons_of_mem _ hx))

/-- The suggestion ranges of a report's diagnostics. -/
lemma mem_suggestion_ranges {r : Report} {x : TextRange} :
    x ∈ r.diagnostics.filterMap (fun d => d.suggestion.map Suggestion.«at») ↔
      ∃ d ∈ r.diagnostics, ∃ s, d.suggestion = some s ∧ s.«at» = x := by
  simp [List.mem_filterMap, Option.map_eq_some']

/-- Claim C2 (amended): `total_diagnostic_range` returns the minimal range
covering every diagnostic range and is `none` exactly when the report has
zero diagnostics; `total_suggestion_range` returns the minimal range
covering every suggestion range and is `none` exactly when no diagnostic of
the report carries a suggestion. -/
theorem total_range_cover_spec (r : Report) :
    (r.total_diagnostic_range = none ↔ r.diagnostics = []) ∧
    (r.total_suggestion_range = none ↔
      ∀ d ∈ r.diagnostics, d.suggestion = none) ∧
    (∀ t, r.total_diagnostic_range = some t →
      (∀ d ∈ r.diagnostics, t.contains_range d.«at») ∧
      ∀ u : TextRange, (∀ d ∈ r.diagnostics, u.contains_range d.«at») →
        u.contains_range t) ∧
    (∀ t, r.total_suggestion_range = some t →
      (∀ d ∈ r.diagnostics, ∀ s, d.suggestion = some s →
        t.contains_range s.«at») ∧
      ∀ u : TextRange, (∀ d ∈ r.diagnostics, ∀ s, d.suggestion = some s →
        u.contains_range s.«at») → u.contains_range t) := by
  refine ⟨?_, ?_, ?_, ?_⟩
  · unfold Report.total_diagnostic_range
    rw [reduce_cover_eq_none]
    simp
  · unfold Report.total_suggestion_range
    rw [reduce_cover_eq_none, List.filterMap_eq_nil_iff]
    simp [Option.map_eq_none']
  · intro t ht
    constructor
    · intro d hd
      exact reduce_cover_contains ht _ (List.mem_map_of_mem _ hd)
    · intro u hu
      refine reduce_cover_least ht ?_
      intro x hx
      obtain ⟨d, hd, rfl⟩ := List.mem_map.mp hx
      exact hu d hd
  · intro t ht
    constructor
    · intro d hd s hs
      exact reduce_cover_contains ht _
        (mem_suggestion_ranges.mpr ⟨d, hd, s, hs, rfl⟩)
    · intro u hu
      refine reduce_cover_least ht ?_
      intro x hx
      obtain ⟨d, hd, s, hs, rfl⟩ := mem_suggestion_ranges.mp hx
      exact hu d hd s hs

/-- A report with one diagnostic that carries no suggestion. -/
def rptNoSugg : Report :=
  ⟨"note", 1, Severity.Warn, [Diagnostic.new ⟨1, 2⟩ "m"]⟩

/-- Claim C2, counterexample to the claim as stated: a report with one
diagnostic and no suggestion has `total_suggestion_range = none` although
its diagnostics are not empty, so `total_suggestion_range` is not absent
exactly when the report has zero diagnostics. -/
theorem total_suggestion_range_cex :
    Report.total_suggestion_range rptNoSugg = none ∧
    rptNoSugg.diagnostics.length = 1 :=
  ⟨rfl, rfl⟩

/-- A suggestion spanning bytes 1 to 3. -/
def sugA : Suggestion := ⟨⟨1, 3⟩, SyntaxElement.token ⟨0, 0⟩ "p"⟩

/-- A suggestion spanning bytes 4 to 7. -/
def sugB : Suggestion := ⟨⟨4, 7⟩, SyntaxElement.token ⟨0, 0⟩ "q"⟩

/-- A report with two suggested diagnostics. -/
def rptTwoSugg : Report :=
  ⟨"note", 1, Severity.Warn,
    [Diagnostic.suggest ⟨1, 3⟩ "m" sugA, Diagnostic.suggest ⟨4, 7⟩ "m" sugB]⟩

/-- Claim C2, witness: on a concrete two-suggestion report the covering
range `[1, 7)` is contained in the enclosing range `[0, 9)`, by minimality
from the main theorem. -/
theorem total_range_cover_spec_w :
    TextRange.contains_range ⟨0, 9⟩ ⟨1, 7⟩ :=
  ((total_range_cover_spec rptTwoSugg).2.2.2 ⟨1, 7⟩ rfl).2 ⟨0, 9⟩ (by
    intro d hd s hs
    rcases List.mem_cons.mp hd with rfl | hd2
    · cases hs
      decide
    · rcases List.mem_cons.mp hd2 with rfl | hd3
      · cases hs
        decide
      · cases hd3)

/-- Claim C9: `Report::range` is `total_suggestion_range().unwrap()`, so it
panics (modelled as `none`) exactly when no diagnostic of the report
carries a suggestion, and under the precondition that some diagnostic
carries a suggestion it returns a range. -/
theorem report_range_spec (r : Report) :
    (r.range = none ↔ ∀ d ∈ r.diagnostics, d.suggestion = none) ∧
    ((∃ d ∈ r.diagnostics, d.suggestion ≠ none) → ∃ t, r.range = some t) := by
  have h1 : r.range = none ↔ ∀ d ∈ r.diagnostics, d.suggestion = none := by
    unfold Report.range Report.total_suggestion_range
    rw [reduce_cover_eq_none, List.filterMap_eq_nil_iff]
    simp [Option.map_eq_none']
  refine ⟨h1, ?_⟩
  intro hex
  cases h : r.range with
  | some t => exact ⟨t, rfl⟩
  | none =>
      obtain ⟨d, hd, hs⟩ := hex
      exact absurd (h1.mp h d hd) hs

/-- Claim C9, witness: on the concrete no-suggestion report, `range`
panics. -/
theorem report_range_spec_w : Report.range rptNoSugg = none :=
  (report_range_spec rptNoSugg).1.mpr (by
    intro d hd
    rcases List.mem_cons.mp hd with rfl | h
    · rfl
    · cases h)

/-- Claim C7: `Report::new` gives the note and code with no diagnostics and
default severity `Warn`; `diagnostic` and `suggest` each append exactly one
diagnostic at the end of the sequence, keep every previously added
diagnostic in order, and leave note, code and severity unchanged.  The
equations hold for every range `a`, already-overlapping or not: no
disjointness validation is performed. -/
theorem report_builder_spec (note msg : String) (code : Nat) (r : Report)
    (a : TextRange) (s : Suggestion) :
    Report.new note code = ⟨note, code, Severity.Warn, []⟩ ∧
    (r.diagnostic a msg).diagnostics
      = r.diagnostics ++ [Diagnostic.new a msg] ∧
    (r.diagnostic a msg).note = r.note ∧
    (r.diagnostic a msg).code = r.code ∧
    (r.diagnostic a msg).severity = r.severity ∧
    (r.suggest a msg s).diagnostics
      = r.diagnostics ++ [Diagnostic.suggest a msg s] ∧
    (r.suggest a msg s).note = r.note ∧
    (r.suggest a msg s).code = r.code ∧
    (r.suggest a msg s).severity = r.severity :=
  ⟨rfl, rfl, rfl, rfl, rfl, rfl, rfl, rfl, rfl⟩

/-- Claim C5: `Suggestion::apply` replaces exactly the bytes in
`[start, stop)` with the textual rendering of the fix element: the bytes
before `start` are unchanged, the replaced segment is the rendering, and
the bytes from `stop` on reappear unchanged after the replacement (shifted
by the length difference). -/
theorem suggestion_apply_spec (s : Suggestion) (src : List Char)
    (h1 : s.«at».start ≤ s.«at».stop) (h2 : s.«at».stop ≤ src.length) :
    (s.apply src).take s.«at».start = src.take s.«at».start ∧
    ((s.apply src).drop s.«at».start).take
        (SyntaxElement.render s.fix).data.length
      = (SyntaxElement.render s.fix).data ∧
    (s.apply src).drop
        (s.«at».start + (SyntaxElement.render s.fix).data.length)
      = src.drop s.«at».stop := by
  unfold Suggestion.apply replace_range
  have hlen : (src.take s.«at».start).length = s.«at».start := by
    rw [List.length_take]
    omega
  refine ⟨?_, ?_, ?_⟩
  · rw [List.append_assoc]
    exact List.take_left' hlen
  · rw [List.append_assoc, List.drop_left' hlen]
    exact List.take_left _ _
  · exact List.drop_left' (by rw [List.length_append, hlen])

/-- A concrete suggestion on bytes 1 to 2 with rendered fix `ZZ`. -/
def sugW : Suggestion := ⟨⟨1, 2⟩, SyntaxElement.token ⟨0, 0⟩ "ZZ"⟩

/-- Claim C5, witness: the three frame facts instantiated on the suggestion
`[1, 2) ↦ ZZ` over the source `abc`. -/
theorem suggestion_apply_spec_w :
    (sugW.apply ['a', 'b', 'c']).take sugW.«at».start
      = (['a', 'b', 'c'] : List Char).take sugW.«at».start ∧
    ((sugW.apply ['a', 'b', 'c']).drop sugW.«at».start).take
        (SyntaxElement.render sugW.fix).data.length
      = (SyntaxElement.render sugW.fix).data ∧
    (sugW.apply ['a', 'b', 'c']).drop
        (sugW.«at».start + (SyntaxElement.render sugW.fix).data.length)
      = (['a', 'b', 'c'] : List Char).drop sugW.«at».stop :=
  suggestion_apply_spec sugW ['a', 'b', 'c'] (by decide) (by decide)

/-- A fix rendering as the two bytes `XX`. -/
def fixXX : SyntaxElement := SyntaxElement.token ⟨0, 0⟩ "XX"

/-- A fix rendering as the single byte `Y`. -/
def fixY : SyntaxElement := SyntaxElement.token ⟨0, 0⟩ "Y"

/-- A report whose two non-overlapping suggested diagnostics are stored in
ascending start order: `[0, 1) ↦ XX` then `[2, 3) ↦ Y`. -/
def rptAsc : Report :=
  ⟨"note", 1, Severity.Warn,
    [Diagnostic.suggest ⟨0, 1⟩ "m" (Suggestion.new ⟨0, 1⟩ fixXX),
     Diagnostic.suggest ⟨2, 3⟩ "m" (Suggestion.new ⟨2, 3⟩ fixY)]⟩

/-- The same two diagnostics stored in descending start order. -/
def rptDesc : Report :=
  ⟨"note", 1, Severity.Warn,
    [Diagnostic.suggest ⟨2, 3⟩ "m" (Suggestion.new ⟨2, 3⟩ fixY),
     Diagnostic.suggest ⟨0, 1⟩ "m" (Suggestion.new ⟨0, 1⟩ fixXX)]⟩

/-- Claim C1 (code bug): `Report::apply` iterates diagnostics in stored
order with ranges that index the original text, so on the source `abc` the
ascending-order report — two non-overlapping suggestions, one of which
changes the length — yields `XXYc` (the second replacement lands on shifted
text and destroys the untouched byte `b`), while the same suggestions in
descending-start-offset order yield `XXbY`; the two outputs differ, so
`Report::apply` does not follow the never-shift ordering discipline the
claim states. -/
theorem report_apply_order_bug :
    rptDesc.diagnostics = rptAsc.diagnostics.reverse ∧
    Report.apply rptAsc ['a', 'b', 'c'] = ['X', 'X', 'Y', 'c'] ∧
    Report.apply rptDesc ['a', 'b', 'c'] = ['X', 'X', 'b', 'Y'] ∧
    Report.apply rptAsc ['a', 'b', 'c']
      ≠ Report.apply rptDesc ['a', 'b', 'c'] := by
  refine ⟨rfl, rfl, rfl, ?_⟩
  decide

lemma editsWithin_mono {m n : Nat} {es : List (TextRange × List Char)}
    (h : editsWithin m es = true) (hmn : m ≤ n) : editsWithin n es = true := by
  cases es with
  | nil => rfl
  | cons e rest =>
      obtain ⟨r, f⟩ := e
      simp only [editsWithin, Bool.and_eq_true, decide_eq_true_eq] at h ⊢
      exact ⟨⟨h.1.1, by omega⟩, h.2⟩

lemma applyEdits_append (es : List (TextRange × List Char)) :
    ∀ (t u : List Char), editsWithin t.length es = true →
      applyEdits (t ++ u) es = applyEdits t es ++ u := by
  induction es with
  | nil =>
      intro t u _
      rfl
  | cons e rest ih =>
      obtain ⟨r, f⟩ := e
      intro t u h
      simp only [editsWithin, Bool.and_eq_true, decide_eq_true_eq] at h
      obtain ⟨⟨h1, h2⟩, h3⟩ := h
      have hrr : replace_range (t ++ u) r.start r.stop f
          = replace_range t r.start r.stop f ++ u := by
        unfold replace_range
        rw [List.take_append_of_le_length (by omega),
            List.drop_append_of_le_length (by omega)]
        simp [List.append_assoc]
      show applyEdits (replace_range (t ++ u) r.start r.stop f) rest
          = applyEdits (replace_range t r.start r.stop f) rest ++ u
      rw [hrr]
      apply ih
      have hlen : r.start ≤ (replace_range t r.start r.stop f).length := by
        unfold replace_range
        rw [List.length_append, List.length_append, List.length_take,
            List.length_drop]
        omega
      exact editsWithin_mono h3 hlen

lemma applyEdits_eq_spliceEdits (es : List (TextRange × List Char)) :
    ∀ src : List Char, editsWithin src.length es = true →
      applyEdits src es = spliceEdits src es := by
  induction es with
  | nil =>
      intro src _
      rfl
  | cons e rest ih =>
      obtain ⟨r, f⟩ := e
      intro src h
      simp only [editsWithin, Bool.and_eq_true, decide_eq_true_eq] at h
      obtain ⟨⟨h1, h2⟩, h3⟩ := h
      have htake : (src.take r.start).length = r.start := by
        rw [List.length_take]
        omega
      have h3' : editsWithin (src.take r.start).length rest = true := by
        rw [htake]
        exact h3
      show applyEdits (replace_range src r.start r.stop f) rest
          = spliceEdits src ((r, f) :: rest)
      have hsplit : replace_range src r.start r.stop f
          = src.take r.start ++ (f ++ src.drop r.stop) := by
        unfold replace_range
        rw [List.append_assoc]
      rw [hsplit, applyEdits_append rest _ _ h3', ih _ h3',
          ← List.append_assoc]
      rfl

lemma apply_eq_applyEdits (ds : List Diagnostic) :
    ∀ src : List Char,
      ds.foldl (fun acc d => d.apply acc) src
        = applyEdits src ((ds.filterMap Diagnostic.suggestion).map
            Suggestion.edit) := by
  induction ds with
  | nil =>
      intro src
      rfl
  | cons d rest ih =>
      intro src
      cases hd : d.suggestion with
      | none =>
          have hne : d.apply src = src := by
            unfold Diagnostic.apply
            rw [hd]
          rw [List.foldl_cons, hne, ih, List.filterMap_cons, hd]
      | some s =>
          have hse : d.apply src = s.apply src := by
            unfold Diagnostic.apply
            rw [hd]
          rw [List.foldl_cons, hse, ih, List.filterMap_cons, hd]
          rfl

/-- Claim C6 (amended): a diagnostic without a suggestion leaves the source
unchanged; and provided the report's suggested edits are stored in
descending start order, pairwise disjoint and within the source,
`Report::apply` equals the splice specification — each suggestion span is
replaced by its rendered fix and every byte outside the suggestion spans is
kept verbatim, in order.  (The ordering proviso is forced by the
counterexample: in ascending order a length-changing fix shifts the later
spans and bytes outside every span are destroyed.) -/
theorem report_apply_frame (r : Report) (src : List Char)
    (h : editsWithin src.length r.edits = true) :
    Report.apply r src = spliceEdits src r.edits ∧
    ∀ d ∈ r.diagnostics, d.suggestion = none → d.apply src = src := by
  constructor
  · show r.diagnostics.foldl (fun acc d => d.apply acc) src = _
    rw [apply_eq_applyEdits]
    exact applyEdits_eq_spliceEdits _ _ h
  · intro d _ hd
    unfold Diagnostic.apply
    rw [hd]

/-- Claim C6, counterexample to the claim as stated: on the ascending-order
report the output of `Report::apply` differs from the splice of the same
edits (taken in descending order), i.e. text outside the suggestion ranges
is not preserved. -/
theorem report_apply_frame_cex :
    Report.apply rptAsc ['a', 'b', 'c']
      ≠ spliceEdits ['a', 'b', 'c'] (Report.edits rptAsc).reverse := by
  decide

/-- Claim C6, witness: on the descending-order report over `abc` the apply
output equals the splice specification. -/
theorem report_apply_frame_w :
    Report.apply rptDesc ['a', 'b', 'c']
      = spliceEdits ['a', 'b', 'c'] (Report.edits rptDesc) :=
  (report_apply_frame rptDesc ['a', 'b', 'c'] (by decide)).1

/-- Claim C3: for every parse error the adapter maps, `from_parse_err`
returns a report with note `Syntax error`, severity `Error` and exactly one
diagnostic at the failure's location whose message is the rendered error
string with its first character ASCII-uppercased; the located kinds give
their own range, the end-of-file kinds the empty range at offset 0, and a
kind outside the mapping panics (modelled as `none`). -/
theorem from_parse_err_spec (render : ParseError → String) (err : ParseError)
    (c : Char) (cs : List Char) (a : TextRange)
    (h1 : parse_err_at err = some a)
    (h2 : (render err).data = c :: cs) (h3 : c.utf8Size = 1) :
    Report.from_parse_err render err = some
      ⟨"Syntax error", 0, Severity.Error,
        [⟨a, String.mk (asciiUppercase c :: cs), none⟩]⟩ ∧
    parse_err_at ParseError.UnexpectedEOF = some (TextRange.empty 0) ∧
    (∀ ks, parse_err_at (ParseError.UnexpectedEOFWanted ks)
      = some (TextRange.empty 0)) ∧
    (∀ b, parse_err_at (ParseError.Unexpected b) = some b) ∧
    (∀ b, parse_err_at (ParseError.UnexpectedExtra b) = some b) ∧
    (∀ g b w, parse_err_at (ParseError.UnexpectedWanted g b w) = some b) ∧
    (∀ b, parse_err_at (ParseError.UnexpectedDoubleBind b) = some b) ∧
    (∀ rnd, Report.from_parse_err rnd ParseError.Other = none) := by
  have hcap : capitalize_first (render err)
      = some (String.mk (asciiUppercase c :: cs)) := by
    unfold capitalize_first
    rw [h2]
    simp [h3]
  refine ⟨?_, rfl, fun _ => rfl, fun _ => rfl, fun _ => rfl,
    fun _ _ _ => rfl, fun _ => rfl, fun _ => rfl⟩
  unfold Report.from_parse_err
  rw [h1, hcap]
  rfl

/-- The rendering used by the adapter witness. -/
def renderW : ParseError → String := fun _ => "unexpected token"

/-- The parse error used by the adapter witness. -/
def errW : ParseError := ParseError.Unexpected ⟨3, 5⟩

/-- Claim C3, witness: a located parse error whose rendering is
`unexpected token` becomes the `Syntax error` report with one diagnostic at
`[3, 5)` and the capitalized message. -/
theorem from_parse_err_spec_w :
    Report.from_parse_err renderW errW = some
      ⟨"Syntax error", 0, Severity.Error,
        [⟨⟨3, 5⟩, String.mk (asciiUppercase 'u' :: ("nexpected token").data),
          none⟩]⟩ :=
  (from_parse_err_spec renderW errW 'u' ("nexpected token").data ⟨3, 5⟩
    rfl rfl (by decide)).1

/-- Claim C10: the capitalization step of `from_parse_err` takes the mutable
byte slice `0..1` of the rendered message and unwraps it, so when the
rendered message is empty, or its first character occupies more than one
byte, the adapter panics (modelled as `none`) instead of returning an
uncapitalized message. -/
theorem from_parse_err_capitalize_panic (render : ParseError → String)
    (err : ParseError) (a : TextRange) (h1 : parse_err_at err = some a)
    (h2 : (render err).data = [] ∨
      ∃ c cs, (render err).data = c :: cs ∧ c.utf8Size ≠ 1) :
    Report.from_parse_err render err = none := by
  have hcap : capitalize_first (render err) = none := by
    unfold capitalize_first
    rcases h2 with h | ⟨c, cs, hc, hs⟩
    · rw [h]
    · rw [hc]
      simp [hs]
  unfold Report.from_parse_err
  rw [h1, hcap]
  rfl

/-- The empty rendering used by the panic witness. -/
def renderEmpty : ParseError → String := fun _ => ""

/-- Claim C10, witness: a located parse error with an empty rendered
message makes the adapter panic. -/
theorem from_parse_err_capitalize_panic_w :
    Report.from_parse_err renderEmpty (ParseError.Unexpected ⟨0, 1⟩)
      = none :=
  from_parse_err_capitalize_panic renderEmpty
    (ParseError.Unexpected ⟨0, 1⟩) ⟨0, 1⟩ rfl (Or.inl rfl)

/-- Claim C4: on a key/value node whose key is the single identifier `name`
and whose value selects `name` out of `set`, `validate` fires with exactly
one diagnostic whose suggestion replaces the whole node's range with the
inherit-from statement, rendering as `inherit (set) name;`; on a key/value
node with a multi-part key, a non-select value, or a key differing from
the select's index, `validate` returns `none`. -/
theorem manual_inherit_validate_spec (rng krng vrng irng : TextRange)
    (name key index : String) (set v : SyntaxElement)
    (hne : key ≠ index) (hv : IsSelect v = false) :
    ManualInherit.validate
        (SyntaxElement.keyValue rng (some [SyntaxElement.ident krng name])
          (some (SyntaxElement.select vrng (some set)
            (some (SyntaxElement.ident irng name)))))
      = some
        ⟨"Assignment instead of inherit from", 4, Severity.Warn,
          [⟨rng, "This assignment is better written with `inherit`",
            some ⟨rng, SyntaxElement.inheritFrom (TextRange.empty 0) set
              [name]⟩⟩]⟩ ∧
    SyntaxElement.render
        (SyntaxElement.inheritFrom (TextRange.empty 0) set [name])
      = "inherit (" ++ SyntaxElement.render set ++ ") " ++ name ++ ";" ∧
    (∀ p1 p2 ps val, ManualInherit.validate
        (SyntaxElement.keyValue rng (some (p1 :: p2 :: ps)) val) = none) ∧
    ManualInherit.validate
        (SyntaxElement.keyValue rng (some [SyntaxElement.ident krng key])
          (some v)) = none ∧
    ManualInherit.validate
        (SyntaxElement.keyValue rng (some [SyntaxElement.ident krng key])
          (some (SyntaxElement.select vrng (some set)
            (some (SyntaxElement.ident irng index))))) = none := by
  refine ⟨?_, ?_, ?_, ?_, ?_⟩
  · simp [ManualInherit.validate, ManualInherit.report, Report.new,
      Report.suggest, Diagnostic.suggest, Suggestion.new,
      make.inherit_from_stmt, SyntaxElement.text_range]
  · rfl
  · intro p1 p2 ps val
    rfl
  · cases v <;> try rfl
    simp [IsSelect] at hv
  · unfold ManualInherit.validate
    simp [hne]

/-- The key/value node of the end-to-end scenario `{ a = b.a; }`: the node
`a = b.a;` spans bytes 2 to 10, key `a` bytes 2 to 3, value `b.a` bytes 6
to 9. -/
def elemKV : SyntaxElement :=
  SyntaxElement.keyValue ⟨2, 10⟩ (some [SyntaxElement.ident ⟨2, 3⟩ "a"])
    (some (SyntaxElement.select ⟨6, 9⟩
      (some (SyntaxElement.ident ⟨6, 7⟩ "b"))
      (some (SyntaxElement.ident ⟨8, 9⟩ "a"))))

/-- Claim C4, witness: on the `a = b.a;` node the rule fires with one
suggestion replacing bytes 2 to 10, and its fix renders exactly as
`inherit (b) a;`. -/
theorem manual_inherit_validate_spec_w :
    ManualInherit.validate elemKV = some
      ⟨"Assignment instead of inherit from", 4, Severity.Warn,
        [⟨⟨2, 10⟩, "This assignment is better written with `inherit`",
          some ⟨⟨2, 10⟩, SyntaxElement.inheritFrom (TextRange.empty 0)
            (SyntaxElement.ident ⟨6, 7⟩ "b") ["a"]⟩⟩]⟩ ∧
    SyntaxElement.render (SyntaxElement.inheritFrom (TextRange.empty 0)
        (SyntaxElement.ident ⟨6, 7⟩ "b") ["a"]) = "inherit (b) a;" := by
  have h := manual_inherit_validate_spec ⟨2, 10⟩ ⟨2, 3⟩ ⟨6, 9⟩ ⟨8, 9⟩ "a"
    "x" "y" (SyntaxElement.ident ⟨6, 7⟩ "b")
    (SyntaxElement.ident ⟨0, 0⟩ "z") (by decide) rfl
  refine ⟨h.1, ?_⟩
  rw [h.2.1]
  rfl

lemma mem_registry_insert {m : SyntaxKind → List LintInfo}
    {k q : SyntaxKind} {l R : LintInfo} :
    R ∈ registry_insert m k l q ↔ R ∈ m q ∨ (q = k ∧ R = l) := by
  unfold registry_insert
  by_cases h : q = k
  · subst h
    simp
  · simp [h]

lemma mem_fold_kinds {l R : LintInfo} {q : SyntaxKind}
    (ks : List SyntaxKind) :
    ∀ m : SyntaxKind → List LintInfo,
      (R ∈ (ks.foldl (fun m2 k => registry_insert m2 k l) m) q ↔
        R ∈ m q ∨ (q ∈ ks ∧ R = l)) := by
  induction ks with
  | nil =>
      intro m
      simp
  | cons k ks ih =>
      intro m
      rw [List.foldl_cons, ih, mem_registry_insert]
      simp only [List.mem_cons]
      tauto

lemma mem_fold_lints {R : LintInfo} {q : SyntaxKind} (ls : List LintInfo) :
    ∀ m : SyntaxKind → List LintInfo,
      (R ∈ (ls.foldl (fun acc l => l.match_kind.foldl
          (fun m2 k => registry_insert m2 k l) acc) m) q ↔
        R ∈ m q ∨ ∃ l, l ∈ ls ∧ R = l ∧ q ∈ l.match_kind) := by
  induction ls with
  | nil =>
      intro m
      simp
  | cons l ls ih =>
      intro m
      rw [List.foldl_cons, ih, mem_fold_kinds]
      constructor
      · rintro ((h | ⟨hq, rfl⟩) | ⟨l2, hl2, rfl, hq⟩)
        · exact Or.inl h
        · exact Or.inr ⟨R, List.mem_cons_self R ls, rfl, hq⟩
        · exact Or.inr ⟨R, List.mem_cons_of_mem l hl2, rfl, hq⟩
      · rintro (h | ⟨l2, hl2, rfl, hq⟩)
        · exact Or.inl (Or.inl h)
        · rcases List.mem_cons.mp hl2 with rfl | h2
          · exact Or.inl (Or.inr ⟨hq, rfl⟩)
          · exact Or.inr ⟨R, h2, rfl, hq⟩

lemma mem_build_registry (R : LintInfo) (q : SyntaxKind)
    (ls : List LintInfo) :
    R ∈ build_registry ls q ↔ ∃ l, l ∈ ls ∧ R = l ∧ q ∈ l.match_kind := by
  unfold build_registry
  rw [mem_fold_lints]
  simp

/-- Claim C8: for every rule `R` registered in the built registry, looking
up a kind `K` of `R.match_kind` yields a list containing `R`, and looking
up a kind outside `R.match_kind` yields a list not containing `R`. -/
theorem registry_lookup_spec (lints : List LintInfo) (R : LintInfo)
    (K : SyntaxKind) (h : R ∈ lints) :
    (K ∈ R.match_kind → R ∈ build_registry lints K) ∧
    (K ∉ R.match_kind → R ∉ build_registry lints K) := by
  constructor
  · intro hk
    exact (mem_build_registry R K lints).mpr ⟨R, h, rfl, hk⟩
  · intro hk hmem
    obtain ⟨l, hl, rfl, hq⟩ := (mem_build_registry R K lints).mp hmem
    exact hk hq

/-- Claim C8, witness: registering the manual-inherit-from rule puts it in
the registry list for `NODE_KEY_VALUE` and in no list for `NODE_IDENT`. -/
theorem registry_lookup_spec_w :
    manual_inherit_info ∈ build_registry [manual_inherit_info]
        SyntaxKind.NODE_KEY_VALUE ∧
    manual_inherit_info ∉ build_registry [manual_inherit_info]
        SyntaxKind.NODE_IDENT := by
  constructor
  · exact (registry_lookup_spec [manual_inherit_info] manual_inherit_info
      SyntaxKind.NODE_KEY_VALUE (List.mem_singleton.mpr rfl)).1 (by decide)
  · exact (registry_lookup_spec [manual_inherit_info] manual_inherit_info
      SyntaxKind.NODE_IDENT (List.mem_singleton.mpr rfl)).2 (by decide)
